import Mathlib

/-!
Verification of the cynic scheduling core: the planner (service.go),
the priority queue (service_queue.go / the final ServiceQueue iteration),
the event data model (the final Event iteration), the status cache and
its HTTP response handler, and the JSON-fetch error paths.

Go machine integers (`int`, `int64`) are modelled as `Int`; `uint64`
identifiers as `Nat` (no arithmetic is ever performed on them, so no
overflow is observable in any claim). Go slices of `*Service` become
`List Event`; pointer mutation becomes functional record update.
-/

/-- The final Event data model (`Event` struct). Hooks are user closures;
their only claim-relevant observable is that they are invoked, so the
model keeps their count in `hooks`, and the planner records each
`Execute` call in an execution log. `url` keeps the rendered
`url.String()` since only that string is ever consumed. -/
structure Event where
  id : Nat
  url : Option String
  secs : Int
  hooks : Nat
  immediate : Bool
  offset : Int
  -- Go field `repeat`; renamed because `repeat` is a Lean keyword.
  repeats : Bool
  Label : String
  absExpiry : Int
  index : Int
  priority : Int
  deleted : Bool
deriving DecidableEq, Repr, Inhabited

/-- Source `Event.SetAbsExpiry`: `s.absExpiry = ts; s.priority = int(ts)`. -/
def Event.SetAbsExpiry (s : Event) (ts : Int) : Event :=
  { s with absExpiry := ts, priority := ts }

/-- Source `Event.GetAbsExpiry`. -/
def Event.GetAbsExpiry (s : Event) : Int := s.absExpiry

/-- Source `Event.Immediate`: setter for the immediate flag. -/
def Event.Immediate (s : Event) (val : Bool) : Event :=
  { s with immediate := val }

/-- Source `Event.IsImmediate`. -/
def Event.IsImmediate (s : Event) : Bool := s.immediate

/-- Source `Event.Offset`: setter for the offset. -/
def Event.Offset (s : Event) (offset : Int) : Event :=
  { s with offset := offset }

/-- Source `Event.GetOffset`. -/
def Event.GetOffset (s : Event) : Int := s.offset

/-- Source `Event.Repeat`: setter for the repeat flag. -/
def Event.Repeat (s : Event) (rep : Bool) : Event :=
  { s with repeats := rep }

/-- Source `Event.IsRepeating`. -/
def Event.IsRepeating (s : Event) : Bool := s.repeats

/-- Source `Event.GetSecs`. -/
def Event.GetSecs (s : Event) : Int := s.secs

/-- Source `Event.ID`. -/
def Event.ID (s : Event) : Nat := s.id

/-- Source `Event.Delete`: marks the event for deletion (tombstone). -/
def Event.Delete (s : Event) : Event := { s with deleted := true }

/-- Source `Event.IsDeleted`. -/
def Event.IsDeleted (s : Event) : Bool := s.deleted

/-- Source `Event.UniqStr`: `"label-id"` when a label is set, else `"id"`. -/
def Event.UniqStr (s : Event) : String :=
  if s.Label ≠ "" then s.Label ++ "-" ++ toString s.id else toString s.id

/-! ## ServiceQueue (the backing slice of `*Service`/`*Event` handles)

`lget`/`lset` model Go slice indexing; out-of-range reads model the Go
panic by an arbitrary default (every claim stays in range). -/

/-- Slice read `pq[i]`. -/
def lget (q : List Event) (i : Nat) : Event := q.getD i default

/-- Slice write `pq[i] = e`. -/
def lset (q : List Event) (i : Nat) (e : Event) : List Event := q.set i e

/-- Source `ServiceQueue.Len`. -/
def ServiceQueue.Len (q : List Event) : Nat := q.length

/-- Source `ServiceQueue.Less i j`: compares by the `priority` field. -/
def sqLess (q : List Event) (i j : Nat) : Bool :=
  (lget q i).priority < (lget q j).priority

/-- Source `ServiceQueue.Swap i j`: swaps the entries and rewrites their
`index` fields to their new positions. -/
def sqSwap (q : List Event) (i j : Nat) : List Event :=
  let a := lget q i
  let b := lget q j
  lset (lset q i { b with index := (i : Int) }) j { a with index := (j : Int) }

/-- Source `ServiceQueue.Push`: sets `item.index = n` and appends (a plain
slice append; it does not restore the heap shape). -/
def sqPush (q : List Event) (item : Event) : List Event :=
  q ++ [{ item with index := (q.length : Int) }]

/-- Source `ServiceQueue.Pop`: removes and returns the LAST slice element,
setting its `index` to -1. -/
def sqPop (q : List Event) : Event × List Event :=
  let item := lget q (q.length - 1)
  ({ item with index := -1 }, q.dropLast)

/-- Source `ServiceQueue.PeekTimestamp` as written in service_queue.go: it
reads `old[n-1]`, the LAST element of the slice (a heap leaf), not the
root. `none` models the Go panic on the empty queue. -/
def ServiceQueue.PeekTimestamp (q : List Event) : Option Int :=
  match q.getLast? with
  | none => none
  | some item => some item.absExpiry

/-- Source `ServiceQueue.PeekTimestamp` of the final queue iteration: returns
`(0, false)` on the empty queue and `(root.absExpiry, true)` otherwise.
This is the overload the planner's `Tick` calls. -/
def ServiceQueue.PeekTimestampOK (q : List Event) : Int × Bool :=
  match q with
  | [] => (0, false)
  | item :: _ => (item.absExpiry, true)

/-- Source `ServiceQueue.PeekID`: `(0, false)` on the empty queue, else the id
of the element at index 0 with `true`. -/
def ServiceQueue.PeekID (q : List Event) : Nat × Bool :=
  match q with
  | [] => (0, false)
  | item :: _ => (item.id, true)

/-! ## container/heap primitives instantiated at ServiceQueue

`heap.Pop(h)` is `Swap(0, n-1); down(0, n-1); h.Pop()`. Only `down` is
ever reached from the planner (`Add` uses the raw `Push`). -/

/-- Source `container/heap.down` specialised to the ServiceQueue `Less`/`Swap`:
sift the element at `i` down within the prefix `[0, n)`. The Go loop
moves `i` strictly upward while it stays below `n`, so it runs at most
`n - i` times; the structural fuel argument (instantiated with `n` by
`heapDown`) only makes that termination explicit. -/
def heapDownGo : Nat → List Event → Nat → Nat → List Event
  | 0, q, _, _ => q
  | fuel + 1, q, i, n =>
    let j1 := 2 * i + 1
    if j1 < n then
      let j := if j1 + 1 < n ∧ sqLess q (j1 + 1) j1 then j1 + 1 else j1
      if sqLess q j i then
        heapDownGo fuel (sqSwap q i j) j n
      else q
    else q

/-- Source `container/heap.down` on the prefix `[0, n)` starting at `i`. -/
def heapDown (q : List Event) (i n : Nat) : List Event :=
  heapDownGo n q i n

/-- Source `container/heap.Pop`: swap the root to the end, sift down the new
root within the shortened prefix, then pop the last slice element. -/
def heapPop (q : List Event) : Event × List Event :=
  let n := q.length - 1
  let q1 := sqSwap q 0 n
  let q2 := heapDown q1 0 n
  sqPop q2

/-! ## Planner (service.go, the priority-queue iteration) -/

/-- Planner state: the event queue and the monotonic tick counter.
`execLog` is the observation log: the ids of the events whose `Execute`
(hence whose hooks) the planner has invoked, in invocation order. -/
structure Planner where
  services : List Event
  ticks : Int
  execLog : List Nat
deriving DecidableEq, Repr

/-- Source `PlannerNew`: empty queue, `ticks` zero. -/
def PlannerNew : Planner := { services := [], ticks := 0, execLog := [] }

/-- Source `Planner.Add`: immediate events get expiry 1 (a constant, not
`ticks + 1`) and the immediate flag cleared; all other events get
`secs + ticks`. The offset is never consulted. The event is pushed with
the raw slice `Push`, not `heap.Push`. -/
def Planner.Add (p : Planner) (service : Event) : Planner :=
  let expiry : Int := if service.IsImmediate then 1 else service.GetSecs + p.ticks
  let s1 := if service.IsImmediate then service.Immediate false else service
  let s2 := s1.SetAbsExpiry expiry
  { p with services := sqPush p.services s2 }

/-- The drain loop body of `Planner.Tick`: while the queue is non-empty
and the root timestamp is at most `ticks`, pop via `heap.Pop`, execute
(log the id), and re-`Add` repeating events. The Go `for` loop has no
bound; the fuel argument only caps the iteration count so the model is
total — `Planner.Tick` passes enough fuel that the model agrees with Go
whenever every queued event has `secs ≥ 1` (with non-positive `secs` a
repeating event makes the Go loop diverge). -/
def tickDrain : Nat → Planner → Planner
  | 0, p => p
  | fuel + 1, p =>
    if (ServiceQueue.Len p.services) = 0 then p
    else
      let rootTimestamp := (ServiceQueue.PeekTimestampOK p.services).1
      if rootTimestamp ≤ p.ticks then
        let popped := heapPop p.services
        let p1 := { p with services := popped.2, execLog := p.execLog ++ [popped.1.id] }
        if popped.1.IsRepeating then tickDrain fuel (p1.Add popped.1)
        else tickDrain fuel p1
      else p

/-- Source `Planner.Tick`: drain all expired entries, THEN increment `ticks`
(the increment is the last statement of the Go function). -/
def Planner.Tick (p : Planner) : Planner :=
  let d := tickDrain (p.services.length + 1) p
  { d with ticks := d.ticks + 1 }

/-- Source `Planner.Len`. -/
def Planner.Len (p : Planner) : Nat := p.services.length


/-! ## StatusCache (the sync.Map-backed status store)

The `sync.Map` of contract results becomes an association list with at
most one entry per key; `Store` overwrites in place or appends,
`Delete` removes, `Range` visits every entry. -/

/-- Source `sync.Map.Store`: overwrite the first binding of `key`, or append. -/
def updateEntries {α : Type} : List (String × α) → String → α → List (String × α)
  | [], key, value => [(key, value)]
  | (k, v) :: rest, key, value =>
    if k = key then (key, value) :: rest
    else (k, v) :: updateEntries rest key value

/-- Source `sync.Map.Delete`: remove the first binding of `key`, if any. -/
def deleteEntries {α : Type} : List (String × α) → String → List (String × α)
  | [], _ => []
  | (k, v) :: rest, key =>
    if k = key then rest
    else (k, v) :: deleteEntries rest key

/-- Source `sync.Map.Load`: the value bound to `key`, if present. -/
def lookupEntries {α : Type} : List (String × α) → String → Option α
  | [], _ => none
  | (k, v) :: rest, key =>
    if k = key then some v
    else lookupEntries rest key

/-- Source `StatusCache` (also `StatusServer` in the final Event iteration,
whose `Update` is the same `sync.Map.Store` call): the store of
contract results. -/
structure StatusCache (α : Type) where
  entries : List (String × α)
deriving DecidableEq, Repr

/-- Source `StatusCache.Update`: insert or overwrite. -/
def StatusCache.Update {α : Type} (s : StatusCache α) (key : String) (value : α) :
    StatusCache α :=
  { s with entries := updateEntries s.entries key value }

/-- Source `StatusCache.Delete`: remove if present, no-op otherwise. -/
def StatusCache.Delete {α : Type} (s : StatusCache α) (key : String) : StatusCache α :=
  { s with entries := deleteEntries s.entries key }

/-- Source `StatusCache.NumEntries`: counts the entries with `Range`. -/
def StatusCache.NumEntries {α : Type} (s : StatusCache α) : Nat :=
  s.entries.length

/-- Modelled from the spec: `Get(key) → (value, present)` — the read
operation of StatusCache (§4.3). No `Get` wrapper exists under src/;
this is `sync.Map.Load` exposed per the spec's contract, returning the
stored value with `true`, or nothing with `false`. -/
def StatusCache.Get {α : Type} (s : StatusCache α) (key : String) : Option α × Bool :=
  match lookupEntries s.entries key with
  | some v => (some v, true)
  | none => (none, false)

/-! ## HTTP fetch and Event.Execute (the final Event iteration)

`http.Get`, body reading and `json.Unmarshal` are external effects;
they enter the model as oracles: `fetch` maps the requested address to
the outcome of `http.Get` + `ReadAll`, and `parse` stands for
`parseEndpointJSON` (json_utils.go), whose success or failure on a
given body is not decided by this repository's code. -/

/-- Result of `json.Unmarshal` inside `parseEndpointJSON`: the decoded
value (abstracted by the raw body it came from) or `nil` on a decode
error. -/
inductive EndpointJSON where
  | value (raw : String)
  | null
deriving DecidableEq, Repr

/-- A value stored in the status cache by `jsonQuery`: the
`eventError` record (JSON field `error`) or a parsed body. -/
inductive CacheValue where
  | errorRecord (msg : String)
  | json (v : EndpointJSON)
deriving DecidableEq, Repr

/-- Outcome of `http.Get` and the subsequent body read: `getErr` is a
non-nil error from `http.Get`; otherwise a response with its status
code and either the body (`some`) or a read failure (`none`). -/
inductive HTTPOutcome where
  | getErr
  | resp (statusCode : Nat) (readResult : Option String)
deriving DecidableEq, Repr

/-- Source `jsonQuery(s, t)`: fetch `s.url`; on connection failure, non-200
status, or body-read failure store an `eventError` under the ADDRESS
(the URL string); on success store the parsed body under `s.UniqStr()`.
Callers guarantee `s.url ≠ nil` (`getD` only discharges the option). -/
def jsonQuery (fetch : String → HTTPOutcome) (parse : String → EndpointJSON)
    (s : Event) (t : StatusCache CacheValue) : StatusCache CacheValue :=
  let address := s.url.getD ("")
  match fetch address with
  | HTTPOutcome.getErr =>
    t.Update address (CacheValue.errorRecord ("problem getting response"))
  | HTTPOutcome.resp statusCode readResult =>
    if statusCode ≠ 200 then
      t.Update address (CacheValue.errorRecord (("got non 200 code: ") ++ toString statusCode))
    else
      match readResult with
      | none =>
        t.Update address (CacheValue.errorRecord ("problem reading data from endpoint"))
      | some body =>
        t.Update (s.UniqStr) (CacheValue.json (parse body))

/-- Source `Event.Execute`: when a url and a repo are bound, run `jsonQuery`;
then invoke every hook (the hook loop always runs — the model returns
how many hooks were invoked, which is always all of them). The function
returns no error: fetch failures only ever land in the cache. -/
def Event.Execute (fetch : String → HTTPOutcome) (parse : String → EndpointJSON)
    (s : Event) (repo : Option (StatusCache CacheValue)) :
    Option (StatusCache CacheValue) × Nat :=
  match repo with
  | some t =>
    if s.url.isSome then (some (jsonQuery fetch parse s t), s.hooks)
    else (some t, s.hooks)
  | none => (none, s.hooks)

/-! ## StatusCache.makeResponse (the HTTP handler)

`req.URL.Path[len(s.root):]` is byte slicing on the path; paths and the
root are `List Char` here so the slicing is `List.drop`. `json.Marshal`
enters as oracles: `marshalValue` for a stored value, `marshalMap` for
the whole snapshot map; `json.Marshal` of the untyped `nil` produced by
indexing a missing key always yields `"null"`. The handler never calls
`WriteHeader`, so net/http replies with status 200 in every branch. -/

/-- Source `StatusCache.makeResponse`: serve a single key (non-empty suffix
after the root) or the full snapshot (empty suffix); a marshalling
failure yields the fixed error body, still with status 200. -/
def StatusCache.makeResponse {α : Type} (marshalValue : α → Option String)
    (marshalMap : List (String × α) → Option String)
    (s : StatusCache α) (root : List Char) (path : List Char) : Nat × String :=
  let query : List Char := path.drop root.length
  let enc : Option String :=
    if 0 < query.length then
      match lookupEntries s.entries (String.mk query) with
      | none => some ("null")
      | some v => marshalValue v
    else marshalMap s.entries
  match enc with
  | none => (200, ("\x7b\"error\":\"could not format status data\"\x7d"))
  | some jsonEnc => (200, jsonEnc)

/-! ## The final planner (spec-modelled)

The repository's final planner — the one its tests drive with
`planner.Delete(&event)` — is not under src/: src/ holds only the
`Event.Delete`/`Event.IsDeleted` declarations and the tests. Its
`Delete` and the deleted-tombstone check in `Tick` are therefore
modelled from the spec (§4.2). Pointer identity of `*Event` becomes
identity of `id`. -/

/-- Pop an entry with minimal `absExpiry` (first such entry; the spec
leaves ties arbitrary). `none` on the empty queue. -/
def popMinAbs : List Event → Option (Event × List Event)
  | [] => none
  | e :: rest =>
    match popMinAbs rest with
    | none => some (e, [])
    | some (m, rest') =>
      if e.absExpiry ≤ m.absExpiry then some (e, rest) else some (m, e :: rest')

/-- Modelled from the spec: `Add(event)` of the final planner (§4.2) —
immediate events expire at `ticks + 1` and the flag is cleared;
otherwise `abs_expiry = ticks + offset + interval_secs` and the offset
is cleared (it applies only the first time). -/
def SpecPlanner.Add (p : Planner) (e : Event) : Planner :=
  if e.IsImmediate then
    let e2 := (e.Immediate false).SetAbsExpiry (p.ticks + 1)
    { p with services := p.services ++ [e2] }
  else
    let e2 := ({ e with offset := 0 }).SetAbsExpiry (p.ticks + e.offset + e.secs)
    { p with services := p.services ++ [e2] }

/-- Modelled from the spec: `Delete(event)` of the final planner (§4.2)
— marks the event's `deleted` tombstone (every queued handle of that
event, since they alias one pointer) and returns whether the event was
known to the planner. -/
def SpecPlanner.Delete (p : Planner) (eid : Nat) : Planner × Bool :=
  let known := p.services.any (fun e => e.id = eid)
  ({ p with services := p.services.map (fun e => if e.id = eid then e.Delete else e) },
    known)

/-- Modelled from the spec: the drain loop of the final planner's
`Tick` (§4.2) — while the minimum `abs_expiry ≤ ticks`: a deleted root
is popped and discarded; otherwise the root is popped, executed, and
re-added when repeating. Fuel as in `tickDrain`. -/
def SpecPlanner.drain : Nat → Planner → Planner
  | 0, p => p
  | fuel + 1, p =>
    match popMinAbs p.services with
    | none => p
    | some (root, rest) =>
      if root.absExpiry ≤ p.ticks then
        if root.IsDeleted then SpecPlanner.drain fuel { p with services := rest }
        else
          let p1 := { p with services := rest, execLog := p.execLog ++ [root.id] }
          if root.IsRepeating then SpecPlanner.drain fuel (SpecPlanner.Add p1 root)
          else SpecPlanner.drain fuel p1
      else p

/-- Modelled from the spec: `Tick()` of the final planner (§4.2) —
first increments `ticks`, then drains all entries with
`abs_expiry ≤ ticks`, skipping tombstoned entries. -/
def SpecPlanner.Tick (p : Planner) : Planner :=
  let p1 := { p with ticks := p.ticks + 1 }
  SpecPlanner.drain (p1.services.length + 1) p1

/-! # Lemmas and claim theorems -/

/-! ## Association-list facts for the StatusCache -/

lemma lookupEntries_updateEntries_self {α : Type} (l : List (String × α)) (k : String) (v : α) :
    lookupEntries (updateEntries l k v) k = some v := by
  induction l with
  | nil => simp [updateEntries, lookupEntries]
  | cons h t ih =>
    obtain ⟨k', v'⟩ := h
    by_cases hk : k' = k <;> simp [updateEntries, lookupEntries, hk, ih]

lemma mem_keys_updateEntries {α : Type} (l : List (String × α)) (k : String) (v : α)
    (x : String) :
    x ∈ (updateEntries l k v).map Prod.fst ↔ x = k ∨ x ∈ l.map Prod.fst := by
  induction l with
  | nil => simp [updateEntries]
  | cons h t ih =>
    obtain ⟨k', v'⟩ := h
    by_cases hk : k' = k
    · subst hk
      simp only [updateEntries, if_true]
      simp only [List.map_cons, List.mem_cons]
      tauto
    · simp only [updateEntries, if_neg hk, List.map_cons, List.mem_cons, ih]
      tauto

lemma nodup_keys_updateEntries {α : Type} (l : List (String × α)) (k : String) (v : α)
    (h : (l.map Prod.fst).Nodup) : ((updateEntries l k v).map Prod.fst).Nodup := by
  induction l with
  | nil => simp [updateEntries]
  | cons hd t ih =>
    obtain ⟨k', v'⟩ := hd
    simp only [List.map_cons, List.nodup_cons] at h
    by_cases hk : k' = k
    · subst hk
      simp only [updateEntries, if_true]
      simp only [List.map_cons, List.nodup_cons]
      exact h
    · simp only [updateEntries, if_neg hk, List.map_cons, List.nodup_cons]
      refine ⟨?_, ih h.2⟩
      rw [mem_keys_updateEntries]
      rintro (rfl | hx)
      · exact hk rfl
      · exact h.1 hx

lemma deleteEntries_sublist {α : Type} (l : List (String × α)) (k : String) :
    (deleteEntries l k).Sublist l := by
  induction l with
  | nil => simp [deleteEntries]
  | cons hd t ih =>
    obtain ⟨k', v'⟩ := hd
    by_cases hk : k' = k
    · simp [deleteEntries, hk]
    · simpa [deleteEntries, hk] using ih

lemma nodup_keys_deleteEntries {α : Type} (l : List (String × α)) (k : String)
    (h : (l.map Prod.fst).Nodup) : ((deleteEntries l k).map Prod.fst).Nodup :=
  ((deleteEntries_sublist l k).map Prod.fst).nodup h

lemma lookupEntries_eq_none_iff {α : Type} (l : List (String × α)) (k : String) :
    lookupEntries l k = none ↔ k ∉ l.map Prod.fst := by
  induction l with
  | nil => simp [lookupEntries]
  | cons hd t ih =>
    obtain ⟨k', v'⟩ := hd
    by_cases hk : k' = k
    · subst hk
      simp [lookupEntries]
    · have hk' : ¬ (k = k') := fun h => hk h.symm
      simp only [lookupEntries, if_neg hk, List.map_cons, List.mem_cons, ih]
      simp [hk']

lemma lookupEntries_isSome_iff {α : Type} (l : List (String × α)) (k : String) :
    (lookupEntries l k).isSome ↔ k ∈ l.map Prod.fst := by
  induction l with
  | nil => simp [lookupEntries]
  | cons hd t ih =>
    obtain ⟨k', v'⟩ := hd
    by_cases hk : k' = k
    · subst hk
      simp [lookupEntries]
    · have hk' : ¬ (k = k') := fun h => hk h.symm
      simp only [lookupEntries, if_neg hk, List.map_cons, List.mem_cons, ih]
      simp [hk']

lemma lookupEntries_deleteEntries_self {α : Type} (l : List (String × α)) (k : String)
    (h : (l.map Prod.fst).Nodup) : lookupEntries (deleteEntries l k) k = none := by
  induction l with
  | nil => simp [deleteEntries, lookupEntries]
  | cons hd t ih =>
    obtain ⟨k', v'⟩ := hd
    simp only [List.map_cons, List.nodup_cons] at h
    by_cases hk : k' = k
    · subst hk
      simp only [deleteEntries, if_pos rfl]
      rw [lookupEntries_eq_none_iff]
      exact h.1
    · simp only [deleteEntries, if_neg hk, lookupEntries]
      exact ih h.2

lemma deleteEntries_of_absent {α : Type} (l : List (String × α)) (k : String)
    (h : lookupEntries l k = none) : deleteEntries l k = l := by
  induction l with
  | nil => simp [deleteEntries]
  | cons hd t ih =>
    obtain ⟨k', v'⟩ := hd
    by_cases hk : k' = k
    · simp [lookupEntries, hk] at h
    · simp [lookupEntries, hk] at h
      simp [deleteEntries, hk, ih h]

/-- C7: StatusCache round-trip laws. `Update k v` then `Get k` reads
`(v, true)`; a second `Update k v'` overwrites; `Delete k` makes `Get k`
report absence; `Delete` of an absent key is a no-op; and `NumEntries`
(`Count`) equals the number of currently present keys (the key list,
which under the one-binding-per-key invariant maintained by every
operation enumerates exactly the present keys, each once). -/
theorem statusCache_roundtrip_laws :
    (∀ (α : Type) (s : StatusCache α) (k : String) (v : α),
        (s.Update k v).Get k = (some v, true)) ∧
    (∀ (α : Type) (s : StatusCache α) (k : String) (v v' : α),
        ((s.Update k v).Update k v').Get k = (some v', true)) ∧
    (∀ (α : Type) (s : StatusCache α) (k : String),
        (s.entries.map Prod.fst).Nodup → (s.Delete k).Get k = (none, false)) ∧
    (∀ (α : Type) (s : StatusCache α) (k : String),
        (s.Get k).2 = false → s.Delete k = s) ∧
    (∀ (α : Type) (s : StatusCache α),
        (s.entries.map Prod.fst).Nodup →
          s.NumEntries = (s.entries.map Prod.fst).length ∧
          ∀ k, (s.Get k).2 = true ↔ k ∈ s.entries.map Prod.fst) ∧
    (∀ (α : Type) (s : StatusCache α) (k : String) (v : α),
        (s.entries.map Prod.fst).Nodup →
          ((s.Update k v).entries.map Prod.fst).Nodup ∧
          ((s.Delete k).entries.map Prod.fst).Nodup) := by
  refine ⟨?_, ?_, ?_, ?_, ?_, ?_⟩
  · intro α s k v
    simp [StatusCache.Get, StatusCache.Update, lookupEntries_updateEntries_self]
  · intro α s k v v'
    simp [StatusCache.Get, StatusCache.Update, lookupEntries_updateEntries_self]
  · intro α s k h
    simp [StatusCache.Get, StatusCache.Delete, lookupEntries_deleteEntries_self _ _ h]
  · intro α s k h
    rcases hl : lookupEntries s.entries k with _ | v
    · obtain ⟨e⟩ := s
      simp only [StatusCache.Delete]
      simp [deleteEntries_of_absent _ _ hl]
    · simp [StatusCache.Get, hl] at h
  · intro α s h
    refine ⟨by simp [StatusCache.NumEntries], ?_⟩
    intro k
    rw [← lookupEntries_isSome_iff]
    rcases hl : lookupEntries s.entries k with _ | v <;> simp [StatusCache.Get, hl]
  · intro α s k v h
    exact ⟨nodup_keys_updateEntries _ _ _ h, nodup_keys_deleteEntries _ _ h⟩

/-- C7 witness at a concrete cache. -/
theorem statusCache_roundtrip_laws_witness :
    ((StatusCache.mk [(("a" : String), (1 : Nat))]).Update ("b") 2).Get ("b")
        = (some 2, true) ∧
    ((StatusCache.mk [(("a" : String), (1 : Nat))]).Delete ("a")).Get ("a")
        = (none, false) ∧
    (StatusCache.mk [(("a" : String), (1 : Nat)), (("b" : String), 2)]).NumEntries = 2 := by
  refine ⟨statusCache_roundtrip_laws.1 Nat _ _ _, ?_, ?_⟩
  · exact statusCache_roundtrip_laws.2.2.1 Nat _ ("a") (by decide)
  · exact (statusCache_roundtrip_laws.2.2.2.2.1 Nat _ (by decide)).1

/-- C8: routing of the status HTTP handler. For any cache state: a GET
of `{root}{key}` (non-empty suffix after the root) replies 200 with the
JSON encoding of the value stored under `key`, or the body `null` when
the key is absent, or the fixed error body when encoding fails; a GET
of `{root}` (empty suffix) replies 200 with the encoded full snapshot,
or the fixed error body when encoding fails. The status is 200 in every
branch. -/
theorem makeResponse_routes :
    (∀ (α : Type) (mv : α → Option String) (mm : List (String × α) → Option String)
        (s : StatusCache α) (root key : List Char),
        key ≠ [] →
        (∀ (v : α) (j : String),
          lookupEntries s.entries (String.mk key) = some v → mv v = some j →
          StatusCache.makeResponse mv mm s root (root ++ key) = (200, j)) ∧
        (lookupEntries s.entries (String.mk key) = none →
          StatusCache.makeResponse mv mm s root (root ++ key) = (200, ("null"))) ∧
        (∀ v : α,
          lookupEntries s.entries (String.mk key) = some v → mv v = none →
          StatusCache.makeResponse mv mm s root (root ++ key)
            = (200, ("\x7b\"error\":\"could not format status data\"\x7d")))) ∧
    (∀ (α : Type) (mv : α → Option String) (mm : List (String × α) → Option String)
        (s : StatusCache α) (root : List Char),
        (∀ j : String, mm s.entries = some j →
          StatusCache.makeResponse mv mm s root root = (200, j)) ∧
        (mm s.entries = none →
          StatusCache.makeResponse mv mm s root root
            = (200, ("\x7b\"error\":\"could not format status data\"\x7d")))) := by
  constructor
  · intro α mv mm s root key hkey
    have hq : (root ++ key).drop root.length = key := List.drop_left root key
    have hlen : 0 < key.length := List.length_pos.mpr hkey
    refine ⟨?_, ?_, ?_⟩
    · intro v j hl hj
      simp [StatusCache.makeResponse, hq, hlen, hl, hj]
    · intro hl
      simp [StatusCache.makeResponse, hq, hlen, hl]
    · intro v hl hj
      simp [StatusCache.makeResponse, hq, hlen, hl, hj]
  · intro α mv mm s root
    have hq : root.drop root.length = ([] : List Char) := by simp
    constructor
    · intro j hj
      simp [StatusCache.makeResponse, hq, hj]
    · intro hj
      simp [StatusCache.makeResponse, hq, hj]

/-- C8 witness: a concrete cache with one entry, a total encoder and a
failing encoder. -/
theorem makeResponse_routes_witness :
    StatusCache.makeResponse (fun n : Nat => some (toString n)) (fun _ => some ("snap"))
        (StatusCache.mk [(("k" : String), (5 : Nat))]) ([ '/' ]) ([ '/', 'k' ])
      = (200, ("5")) ∧
    StatusCache.makeResponse (fun n : Nat => some (toString n)) (fun _ => some ("snap"))
        (StatusCache.mk [(("k" : String), (5 : Nat))]) ([ '/' ]) ([ '/', 'x' ])
      = (200, ("null")) ∧
    StatusCache.makeResponse (fun n : Nat => some (toString n)) (fun _ => some ("snap"))
        (StatusCache.mk [(("k" : String), (5 : Nat))]) ([ '/' ]) ([ '/' ])
      = (200, ("snap")) ∧
    StatusCache.makeResponse (fun _ : Nat => none) (fun _ => none)
        (StatusCache.mk [(("k" : String), (5 : Nat))]) ([ '/' ]) ([ '/', 'k' ])
      = (200, ("\x7b\"error\":\"could not format status data\"\x7d")) := by
  refine ⟨?_, ?_, ?_, ?_⟩
  · exact (makeResponse_routes.1 Nat _ _ _ ([ '/' ]) ([ 'k' ]) (by decide)).1 5 ("5")
      (by decide) rfl
  · exact (makeResponse_routes.1 Nat _ _ _ ([ '/' ]) ([ 'x' ]) (by decide)).2.1 (by decide)
  · exact (makeResponse_routes.2 Nat _ _ _ ([ '/' ])).1 ("snap") rfl
  · exact (makeResponse_routes.1 Nat _ _ _ ([ '/' ]) ([ 'k' ]) (by decide)).2.2 5
      (by decide) rfl

/-- C10: `ServiceQueue.PeekID` is total on the empty queue, returning
`(0, false)` rather than failing, and on a non-empty queue it returns
the id of the element at index 0 with `true`. -/
theorem peekID_total_on_empty :
    ServiceQueue.PeekID [] = (0, false) ∧
    ∀ (e : Event) (rest : List Event), ServiceQueue.PeekID (e :: rest) = (e.id, true) :=
  ⟨rfl, fun _ _ => rfl⟩

/-- C9: `Event.SetAbsExpiry ts` makes `priority = int(ts)` and
`absExpiry = ts`, so the two stay in sync; every event pushed by
`Planner.Add` satisfies `priority = absExpiry`; and for entries with
that sync the queue's `Less` (a comparison of `priority`) coincides
with strict comparison of `absExpiry`. -/
theorem setAbsExpiry_priority_sync :
    (∀ (e : Event) (ts : Int),
        (e.SetAbsExpiry ts).priority = ts ∧ (e.SetAbsExpiry ts).absExpiry = ts) ∧
    (∀ (p : Planner) (e : Event), ∀ x ∈ (p.Add e).services,
        x ∈ p.services ∨ x.priority = x.absExpiry) ∧
    (∀ (q : List Event) (i j : Nat),
        (lget q i).priority = (lget q i).absExpiry →
        (lget q j).priority = (lget q j).absExpiry →
        (sqLess q i j = true ↔ (lget q i).absExpiry < (lget q j).absExpiry)) := by
  refine ⟨fun e ts => ⟨rfl, rfl⟩, ?_, ?_⟩
  · intro p e x hx
    have hx' : x ∈ p.services ++
        [{ (if e.IsImmediate then e.Immediate false else e).SetAbsExpiry
            (if e.IsImmediate then 1 else e.GetSecs + p.ticks) with
          index := (p.services.length : Int) }] := by
      simpa [Planner.Add, sqPush] using hx
    rcases List.mem_append.mp hx' with h | h
    · exact Or.inl h
    · right
      simp only [List.mem_singleton] at h
      subst h
      rfl
  · intro q i j h1 h2
    simp only [sqLess, decide_eq_true_eq]
    rw [h1, h2]

/-- C9 witness at concrete events. -/
theorem setAbsExpiry_priority_sync_witness :
    (((default : Event).SetAbsExpiry 42).priority = 42 ∧
      ((default : Event).SetAbsExpiry 42).absExpiry = 42) ∧
    (sqLess [(default : Event).SetAbsExpiry 3, (default : Event).SetAbsExpiry 7] 0 1 = true
      ↔ (lget [(default : Event).SetAbsExpiry 3, (default : Event).SetAbsExpiry 7] 0).absExpiry
          < (lget [(default : Event).SetAbsExpiry 3, (default : Event).SetAbsExpiry 7] 1).absExpiry) := by
  constructor
  · exact setAbsExpiry_priority_sync.1 default 42
  · exact setAbsExpiry_priority_sync.2.2
      [(default : Event).SetAbsExpiry 3, (default : Event).SetAbsExpiry 7] 0 1
      (by decide) (by decide)

/-- A concrete JSON event: id 7, no label (unique key `"7"`), bound to
the endpoint `http://example.com`, two hooks. -/
def eC6 : Event :=
  { id := 7, url := some ("http://example.com"), secs := 1, hooks := 2,
    immediate := false, offset := 0, repeats := false, Label := "",
    absExpiry := 0, index := 0, priority := 0, deleted := false }

/-- C6 counterexample: when the HTTP GET of a concrete JSON event fails
with a connection error, no record at all is written under the event's
key (`UniqStr`, here `"7"`) — the error record lands under the endpoint
URL string instead. -/
theorem jsonQuery_error_key_counterexample :
    lookupEntries (jsonQuery (fun _ => HTTPOutcome.getErr) (fun b => EndpointJSON.value b)
        eC6 (StatusCache.mk [])).entries (eC6.UniqStr) = none ∧
    lookupEntries (jsonQuery (fun _ => HTTPOutcome.getErr) (fun b => EndpointJSON.value b)
        eC6 (StatusCache.mk [])).entries ("http://example.com")
      = some (CacheValue.errorRecord ("problem getting response")) := by
  constructor <;> decide

/-- C6 (amended): on connection failure, non-2xx status, or body-read
failure, `jsonQuery` writes the structured error record under the
event's ENDPOINT URL string (the address); only a successful fetch
stores under the event's unique key. `Execute` still invokes every hook
afterwards, and it returns no error — fetch failures are absorbed into
the cache, never surfaced to the planner. -/
theorem jsonQuery_error_paths (fetch : String → HTTPOutcome)
    (parse : String → EndpointJSON) (s : Event) (t : StatusCache CacheValue)
    (u : String) (hurl : s.url = some u) :
    (fetch u = HTTPOutcome.getErr →
      jsonQuery fetch parse s t
        = t.Update u (CacheValue.errorRecord ("problem getting response"))) ∧
    (∀ (code : Nat) (r : Option String),
      fetch u = HTTPOutcome.resp code r → code ≠ 200 →
      jsonQuery fetch parse s t
        = t.Update u (CacheValue.errorRecord (("got non 200 code: ") ++ toString code))) ∧
    (fetch u = HTTPOutcome.resp 200 none →
      jsonQuery fetch parse s t
        = t.Update u (CacheValue.errorRecord ("problem reading data from endpoint"))) ∧
    (∀ body : String, fetch u = HTTPOutcome.resp 200 (some body) →
      jsonQuery fetch parse s t
        = t.Update (s.UniqStr) (CacheValue.json (parse body))) ∧
    (∀ repo, (Event.Execute fetch parse s repo).2 = s.hooks) := by
  refine ⟨?_, ?_, ?_, ?_, ?_⟩
  · intro h
    simp [jsonQuery, hurl, h]
  · intro code r h hc
    simp [jsonQuery, hurl, h, hc]
  · intro h
    simp [jsonQuery, hurl, h]
  · intro body h
    simp [jsonQuery, hurl, h]
  · intro repo
    cases repo with
    | none => rfl
    | some t' =>
      by_cases hu : s.url.isSome <;> simp [Event.Execute, hu]

/-- C6 witness at the concrete event, a 500 response, and a bound repo. -/
theorem jsonQuery_error_paths_witness :
    jsonQuery (fun _ => HTTPOutcome.resp 500 none) (fun b => EndpointJSON.value b) eC6
        (StatusCache.mk [])
      = (StatusCache.mk []).Update ("http://example.com")
          (CacheValue.errorRecord (("got non 200 code: ") ++ toString 500)) ∧
    (Event.Execute (fun _ => HTTPOutcome.resp 500 none) (fun b => EndpointJSON.value b) eC6
        (some (StatusCache.mk []))).2 = 2 := by
  constructor
  · exact (jsonQuery_error_paths _ _ eC6 _ ("http://example.com") rfl).2.1 500 none rfl
      (by decide)
  · exact (jsonQuery_error_paths (fun _ => HTTPOutcome.resp 500 none)
      (fun b => EndpointJSON.value b) eC6 (StatusCache.mk []) ("http://example.com")
      rfl).2.2.2.2 (some (StatusCache.mk []))

/-! ## Planner scheduling facts (service.go) -/

lemma tick_empty (t : Int) (L : List Nat) :
    Planner.Tick ⟨[], t, L⟩ = ⟨[], t + 1, L⟩ := rfl

lemma tick_single_noFire (ev : Event) (τ : Int) (L : List Nat)
    (h : ¬ ev.absExpiry ≤ τ) :
    Planner.Tick ⟨[ev], τ, L⟩ = ⟨[ev], τ + 1, L⟩ := by
  simp [Planner.Tick, tickDrain, ServiceQueue.Len, ServiceQueue.PeekTimestampOK, h]

lemma tick_single_fire (ev : Event) (τ : Int) (L : List Nat)
    (hle : ev.absExpiry ≤ τ) (himm : ev.immediate = false) (hsec : 1 ≤ ev.secs) :
    Planner.Tick ⟨[ev], τ, L⟩ =
      ⟨if ev.repeats then
          [{ ev with absExpiry := ev.secs + τ, priority := ev.secs + τ, index := 0 }]
        else [], τ + 1, L ++ [ev.id]⟩ := by
  have hpop : heapPop [ev] = ({ ev with index := -1 }, []) := rfl
  have hnotle : ¬ (ev.secs + τ ≤ τ) := by omega
  cases hrep : ev.repeats with
  | false =>
    simp [Planner.Tick, tickDrain, ServiceQueue.Len, ServiceQueue.PeekTimestampOK,
      hpop, hle, hrep, Event.IsRepeating]
  | true =>
    simp [Planner.Tick, tickDrain, ServiceQueue.Len, ServiceQueue.PeekTimestampOK,
      hpop, hle, hrep, hnotle, himm, Event.IsRepeating, Event.IsImmediate,
      Event.SetAbsExpiry, Event.GetSecs, Planner.Add, sqPush]

lemma iterate_tick_plannerNew (t : Nat) :
    Planner.Tick^[t] PlannerNew = ⟨[], (t : Int), []⟩ := by
  induction t with
  | zero => rfl
  | succ n ih =>
    rw [Function.iterate_succ_apply', ih, tick_empty]
    norm_num

lemma iterate_tick_single (ev : Event) (t : Int) (L : List Nat) (i : Nat)
    (h : ∀ m : Nat, m < i → ¬ ev.absExpiry ≤ t + m) :
    Planner.Tick^[i] ⟨[ev], t, L⟩ = ⟨[ev], t + i, L⟩ := by
  induction i with
  | zero => simp
  | succ n ih =>
    rw [Function.iterate_succ_apply',
      ih (fun m hm => h m (Nat.lt_succ_of_lt hm)),
      tick_single_noFire ev (t + n) L (h n (Nat.lt_succ_self n))]
    congr 1
    push_cast
    ring

lemma planner_single_schedule (t k : Nat) (e : Event) (hk : 1 ≤ k)
    (hsecs : e.secs = (k : Int)) (himm : e.immediate = false) :
    ((Planner.Tick^[t] PlannerNew).Add e).services
        = [{ e.SetAbsExpiry ((k : Int) + (t : Int)) with index := 0 }] ∧
    (Planner.Tick^[k] ((Planner.Tick^[t] PlannerNew).Add e)).execLog = [] ∧
    (Planner.Tick^[k + 1] ((Planner.Tick^[t] PlannerNew).Add e)).execLog = [e.id] := by
  rw [iterate_tick_plannerNew]
  have hadd : (Planner.mk [] (t : Int) []).Add e
      = ⟨[{ e.SetAbsExpiry ((k : Int) + (t : Int)) with index := 0 }], (t : Int), []⟩ := by
    simp [Planner.Add, Event.IsImmediate, himm, Event.GetSecs, hsecs,
      Event.SetAbsExpiry, sqPush]
  have hnof : ∀ m : Nat, m < k →
      ¬ ({ e.SetAbsExpiry ((k : Int) + (t : Int)) with index := 0 } : Event).absExpiry
          ≤ (t : Int) + m := by
    intro m hm
    simp only [Event.SetAbsExpiry]
    push_cast
    omega
  have hiter := iterate_tick_single
    { e.SetAbsExpiry ((k : Int) + (t : Int)) with index := 0 } (t : Int) [] k hnof
  refine ⟨by rw [hadd], by rw [hadd, hiter], ?_⟩
  rw [Function.iterate_succ_apply', hadd, hiter,
    tick_single_fire _ _ _ (by simp [Event.SetAbsExpiry]; push_cast; omega)
      (by simp [Event.SetAbsExpiry, himm])
      (by simp [Event.SetAbsExpiry, hsecs]; push_cast; omega)]
  simp [Event.SetAbsExpiry]

/-- C1 (amended): for every event with `interval_secs = k ≥ 1`,
immediate unset and offset zero, registered via `Planner.Add` when the
tick counter is `t`: the `k` `Tick()` calls following `Add` invoke none
of the event's hooks, and the `(k+1)`-th `Tick()` invokes them exactly
once. (`Tick` first drains every queued entry whose
`abs_expiry ≤ ticks` and then increments `ticks`; `Add` sets
`abs_expiry = ticks + k` with that pre-drain counter, so the comparison
first succeeds during the `(k+1)`-th call.) -/
theorem planner_first_fire_after_interval (t k : Nat) (e : Event)
    (hk : 1 ≤ k) (hsecs : e.secs = (k : Int)) (himm : e.immediate = false)
    (hoff : e.offset = 0) :
    (Planner.Tick^[k] ((Planner.Tick^[t] PlannerNew).Add e)).execLog = [] ∧
    (Planner.Tick^[k + 1] ((Planner.Tick^[t] PlannerNew).Add e)).execLog = [e.id] :=
  (planner_single_schedule t k e hk hsecs himm).2

/-- A concrete one-second event for the C1 counterexample. -/
def eC1x : Event :=
  { id := 11, url := none, secs := 1, hooks := 1, immediate := false,
    offset := 0, repeats := false, Label := "", absExpiry := 0, index := 0,
    priority := 0, deleted := false }

/-- C1 counterexample: `k = 1` on a fresh planner. The claim as stated
says the `k`-th (here the first) `Tick()` after `Add` invokes the hooks
exactly once; in fact the first `Tick()` invokes nothing and the fire
happens on the second. -/
theorem planner_first_fire_counterexample :
    ((PlannerNew.Add eC1x).Tick).execLog = [] ∧
    ((PlannerNew.Add eC1x).Tick.Tick).execLog = [11] := by
  constructor <;> decide

/-- A concrete three-second event for the C1 witness. -/
def eC1w : Event :=
  { id := 9, url := none, secs := 3, hooks := 1, immediate := false,
    offset := 0, repeats := false, Label := "", absExpiry := 0, index := 0,
    priority := 0, deleted := false }

/-- C1 witness: `t = 2`, `k = 3`. -/
theorem planner_first_fire_after_interval_witness :
    (Planner.Tick^[3] ((Planner.Tick^[2] PlannerNew).Add eC1w)).execLog = [] ∧
    (Planner.Tick^[3 + 1] ((Planner.Tick^[2] PlannerNew).Add eC1w)).execLog = [9] :=
  planner_first_fire_after_interval 2 3 eC1w (by decide) rfl rfl rfl

/-- C3 (amended): for an immediate event (no offset consulted),
`Planner.Add` sets `abs_expiry` to the CONSTANT 1 — which coincides
with `ticks + 1` only on a fresh planner — and clears the immediate
flag. Consequently, when the event is added at tick counter `t ≥ 1` the
first `Tick()` invokes its hooks exactly once, while at `t = 0` the
first `Tick()` invokes nothing and the hooks run on the second. -/
theorem planner_immediate_constant_expiry (t : Nat) (e : Event)
    (himm : e.immediate = true) (hsec : 1 ≤ e.secs) :
    ((Planner.Tick^[t] PlannerNew).Add e).services
        = [{ (e.Immediate false).SetAbsExpiry 1 with index := 0 }] ∧
    (1 ≤ t → (((Planner.Tick^[t] PlannerNew).Add e).Tick).execLog = [e.id]) ∧
    (t = 0 → (((Planner.Tick^[t] PlannerNew).Add e).Tick).execLog = [] ∧
      ((((Planner.Tick^[t] PlannerNew).Add e).Tick).Tick).execLog = [e.id]) := by
  rw [iterate_tick_plannerNew]
  have hadd : (Planner.mk [] (t : Int) []).Add e
      = ⟨[{ (e.Immediate false).SetAbsExpiry 1 with index := 0 }], (t : Int), []⟩ := by
    simp [Planner.Add, Event.IsImmediate, himm, Event.SetAbsExpiry, Event.Immediate, sqPush]
  refine ⟨by rw [hadd], ?_, ?_⟩
  · intro ht
    rw [hadd, tick_single_fire _ _ _ (by simp [Event.SetAbsExpiry]; push_cast; omega)
      (by simp [Event.SetAbsExpiry, Event.Immediate])
      (by simp [Event.SetAbsExpiry, Event.Immediate, hsec])]
    simp [Event.SetAbsExpiry, Event.Immediate]
  · intro ht
    subst ht
    rw [hadd, tick_single_noFire _ _ _ (by simp [Event.SetAbsExpiry])]
    refine ⟨rfl, ?_⟩
    rw [show ((0 : Nat) : Int) + 1 = (1 : Int) by norm_num,
      tick_single_fire _ _ _ (by simp [Event.SetAbsExpiry])
        (by simp [Event.SetAbsExpiry, Event.Immediate])
        (by simp [Event.SetAbsExpiry, Event.Immediate, hsec])]
    simp [Event.SetAbsExpiry, Event.Immediate]

/-- A concrete immediate event for the C3 counterexample. -/
def eC3x : Event :=
  { id := 8, url := none, secs := 5, hooks := 1, immediate := true,
    offset := 0, repeats := false, Label := "", absExpiry := 0, index := 0,
    priority := 0, deleted := false }

/-- C3 counterexample: for an immediate event added to a fresh planner
the first `Tick()` invokes NO hooks (the claim says exactly once), and
for the same event added after three ticks the computed `abs_expiry` is
the constant 1, not `ticks + 1 = 4`. -/
theorem planner_immediate_counterexample :
    ((PlannerNew.Add eC3x).Tick).execLog = [] ∧
    ((Planner.Tick^[3] PlannerNew).Add eC3x).services.map Event.GetAbsExpiry = [1] := by
  constructor <;> decide

/-- C3 witness: `t = 2` (fires on the first tick) and `t = 0` (fires on
the second). -/
theorem planner_immediate_constant_expiry_witness :
    (((Planner.Tick^[2] PlannerNew).Add eC3x).Tick).execLog = [8] ∧
    (((Planner.Tick^[0] PlannerNew).Add eC3x).Tick).execLog = [] ∧
    ((((Planner.Tick^[0] PlannerNew).Add eC3x).Tick).Tick).execLog = [8] := by
  refine ⟨?_, ?_⟩
  · exact (planner_immediate_constant_expiry 2 eC3x rfl (by decide)).2.1 (by decide)
  · exact (planner_immediate_constant_expiry 0 eC3x rfl (by decide)).2.2 rfl

/-- C4 (amended): `Planner.Add` ignores the offset entirely: for an
event with `interval_secs = k`, `offset = d` and immediate unset it
computes `abs_expiry = ticks + k` (no `d` term) and leaves the offset
field unchanged, so the first hook invocation occurs on the `(k+1)`-th
`Tick()` after `Add` regardless of `d`. -/
theorem planner_add_ignores_offset (t k : Nat) (d : Int) (e : Event)
    (hk : 1 ≤ k) (hsecs : e.secs = (k : Int)) (himm : e.immediate = false)
    (hoff : e.offset = d) :
    ((Planner.Tick^[t] PlannerNew).Add e).services
        = [{ e.SetAbsExpiry ((k : Int) + (t : Int)) with index := 0 }] ∧
    ({ e.SetAbsExpiry ((k : Int) + (t : Int)) with index := 0 } : Event).offset = d ∧
    (Planner.Tick^[k] ((Planner.Tick^[t] PlannerNew).Add e)).execLog = [] ∧
    (Planner.Tick^[k + 1] ((Planner.Tick^[t] PlannerNew).Add e)).execLog = [e.id] := by
  obtain ⟨h1, h2, h3⟩ := planner_single_schedule t k e hk hsecs himm
  exact ⟨h1, by simp [Event.SetAbsExpiry, hoff], h2, h3⟩

/-- A concrete event with an offset for the C4 counterexample. -/
def eC4x : Event :=
  { id := 44, url := none, secs := 3, hooks := 1, immediate := false,
    offset := 2, repeats := false, Label := "", absExpiry := 0, index := 0,
    priority := 0, deleted := false }

/-- C4 counterexample: event with `k = 3`, `d = 2` on a fresh planner.
The claim says `abs_expiry = ticks + d + k = 5`, the offset is cleared,
and the first invocation occurs on the `(d+k) = 5`-th `Tick()`; in fact
`abs_expiry = 3`, the offset is still 2 after `Add`, and the hooks have
already run by the fourth `Tick()`. -/
theorem planner_offset_counterexample :
    (PlannerNew.Add eC4x).services.map Event.GetAbsExpiry = [3] ∧
    (PlannerNew.Add eC4x).services.map Event.GetOffset = [2] ∧
    (Planner.Tick^[4] (PlannerNew.Add eC4x)).execLog = [44] := by
  refine ⟨?_, ?_, ?_⟩ <;> decide

/-- C4 witness: `t = 1`, `k = 3`, `d = 2`. -/
theorem planner_add_ignores_offset_witness :
    ((Planner.Tick^[1] PlannerNew).Add eC4x).services
        = [{ eC4x.SetAbsExpiry ((3 : Int) + (1 : Int)) with index := 0 }] ∧
    ({ eC4x.SetAbsExpiry ((3 : Int) + (1 : Int)) with index := 0 } : Event).offset = 2 ∧
    (Planner.Tick^[3] ((Planner.Tick^[1] PlannerNew).Add eC4x)).execLog = [] ∧
    (Planner.Tick^[3 + 1] ((Planner.Tick^[1] PlannerNew).Add eC4x)).execLog = [44] :=
  planner_add_ignores_offset 1 3 2 eC4x (by decide) rfl rfl rfl

/-! ## Heap-shape facts for the ServiceQueue -/

/-- The binary min-heap invariant on the backing slice, stated through
the parent relation: every element is at least its parent under the
`priority` order that `ServiceQueue.Less` compares. -/
def heapInv (q : List Event) : Prop :=
  ∀ j, j < q.length → 0 < j → (lget q ((j - 1) / 2)).priority ≤ (lget q j).priority

lemma heapInv_root_min (q : List Event) (h : heapInv q) :
    ∀ i, i < q.length → (lget q 0).priority ≤ (lget q i).priority := by
  intro i
  induction i using Nat.strong_induction_on with
  | _ i ih =>
    intro hi
    rcases Nat.eq_zero_or_pos i with rfl | hpos
    · exact le_refl _
    · have hparent : (i - 1) / 2 < i := by omega
      exact le_trans (ih _ hparent (lt_trans hparent hi)) (h i hi hpos)

lemma lget_lset_self : ∀ (l : List Event) (i : Nat) (e : Event),
    i < l.length → lget (lset l i e) i = e
  | [], _, _, h => absurd h (by simp)
  | _ :: _, 0, _, _ => rfl
  | _ :: t, Nat.succ i, e, h => lget_lset_self t i e (by simpa using h)

lemma lget_lset_ne : ∀ (l : List Event) (i j : Nat) (e : Event),
    i ≠ j → lget (lset l i e) j = lget l j
  | [], _, _, _, _ => by simp [lget, lset]
  | _ :: _, 0, 0, _, h => absurd rfl h
  | _ :: _, 0, _ + 1, _, _ => rfl
  | _ :: _, _ + 1, 0, _, _ => rfl
  | _ :: t, i + 1, j + 1, e, h =>
    lget_lset_ne t i j e (fun hh => h (by rw [hh]))

lemma length_lset (l : List Event) (i : Nat) (e : Event) :
    (lset l i e).length = l.length := by
  simp [lset]

lemma length_sqSwap (q : List Event) (i j : Nat) :
    (sqSwap q i j).length = q.length := by
  simp [sqSwap, length_lset]

lemma lget_sqSwap_other (q : List Event) (i j m : Nat) (hi : m ≠ i) (hj : m ≠ j) :
    lget (sqSwap q i j) m = lget q m := by
  simp only [sqSwap]
  rw [lget_lset_ne _ _ _ _ (Ne.symm hj), lget_lset_ne _ _ _ _ (Ne.symm hi)]

lemma heapDownGo_length : ∀ (f : Nat) (q : List Event) (i n : Nat),
    (heapDownGo f q i n).length = q.length := by
  intro f
  induction f with
  | zero => intro q i n; rfl
  | succ m ih =>
    intro q i n
    simp only [heapDownGo]
    split_ifs <;> simp [ih, length_sqSwap]

lemma lget_heapDownGo_ge : ∀ (f : Nat) (q : List Event) (i n m : Nat),
    n ≤ m → lget (heapDownGo f q i n) m = lget q m := by
  intro f
  induction f with
  | zero => intro q i n m _; rfl
  | succ fu ih =>
    intro q i n m hnm
    simp only [heapDownGo]
    split_ifs with h1 h2 h3 h4
    · rw [ih _ _ _ _ hnm,
        lget_sqSwap_other _ _ _ _ (by omega) (by omega)]
    · rfl
    · rw [ih _ _ _ _ hnm,
        lget_sqSwap_other _ _ _ _ (by omega) (by omega)]
    · rfl
    · rfl

lemma heapPop_root (q : List Event) (hne : q ≠ []) :
    (heapPop q).1 = { lget q 0 with index := -1 } ∧
    (heapPop q).2.length = q.length - 1 := by
  have hlq : 0 < q.length := List.length_pos.mpr hne
  have hlen2 : (heapDown (sqSwap q 0 (q.length - 1)) 0 (q.length - 1)).length
      = q.length := by
    rw [heapDown, heapDownGo_length, length_sqSwap]
  constructor
  · show ({ lget (heapDown (sqSwap q 0 (q.length - 1)) 0 (q.length - 1))
        ((heapDown (sqSwap q 0 (q.length - 1)) 0 (q.length - 1)).length - 1)
        with index := -1 } : Event) = _
    rw [hlen2, heapDown, lget_heapDownGo_ge _ _ _ _ _ (le_refl _)]
    have hgot : lget (sqSwap q 0 (q.length - 1)) (q.length - 1)
        = { lget q 0 with index := ((q.length - 1 : Nat) : Int) } := by
      simp only [sqSwap]
      exact lget_lset_self _ _ _ (by rw [length_lset]; omega)
    rw [hgot]
  · show (heapDown (sqSwap q 0 (q.length - 1)) 0 (q.length - 1)).dropLast.length = _
    rw [List.length_dropLast, hlen2]

/-- C2 (amended): `ServiceQueue.PeekTimestamp` returns the `abs_expiry`
of the LAST element of the backing slice, not the minimum, and
`Planner.Add` pushes with the raw slice append; but on every queue that
does satisfy the binary min-heap invariant on `priority`, the root
(index 0) holds a minimal priority and `container/heap.Pop` removes and
returns exactly that root element (its `index` field set to -1),
shrinking the queue by one. -/
theorem heap_invariant_pop_min (q : List Event) (hne : q ≠ []) (hinv : heapInv q) :
    (∀ i, i < q.length → (lget q 0).priority ≤ (lget q i).priority) ∧
    (heapPop q).1 = { lget q 0 with index := -1 } ∧
    (heapPop q).2.length = q.length - 1 ∧
    ServiceQueue.PeekTimestamp q = some (lget q (q.length - 1)).absExpiry := by
  obtain ⟨h1, h2⟩ := heapPop_root q hne
  refine ⟨heapInv_root_min q hinv, h1, h2, ?_⟩
  have hlq : 0 < q.length := List.length_pos.mpr hne
  rw [ServiceQueue.PeekTimestamp, List.getLast?_eq_getElem?]
  have : q[q.length - 1]? = some (lget q (q.length - 1)) := by
    rw [List.getElem?_eq_getElem (by omega)]
    simp [lget, List.getD_eq_getElem?_getD, List.getElem?_eq_getElem (by omega : q.length - 1 < q.length)]
  rw [this]

/-- Three events with intervals 3, 1, 2 for the C2 counterexample. -/
def eC2a : Event :=
  { id := 1, url := none, secs := 3, hooks := 0, immediate := false,
    offset := 0, repeats := false, Label := "", absExpiry := 0, index := 0,
    priority := 0, deleted := false }

def eC2b : Event :=
  { id := 2, url := none, secs := 1, hooks := 0, immediate := false,
    offset := 0, repeats := false, Label := "", absExpiry := 0, index := 0,
    priority := 0, deleted := false }

def eC2c : Event :=
  { id := 3, url := none, secs := 2, hooks := 0, immediate := false,
    offset := 0, repeats := false, Label := "", absExpiry := 0, index := 0,
    priority := 0, deleted := false }

/-- C2 counterexample: pushing events with intervals 3, 1, 2 through
`Planner.Add` on a fresh planner yields the backing slice
`[3, 1, 2]` (by `abs_expiry`), whose minimum is 1 — yet
`ServiceQueue.PeekTimestamp` answers 2 (the last slice element) and
`heap.Pop` removes and returns the event with `abs_expiry` 3. -/
theorem queue_min_counterexample :
    (((PlannerNew.Add eC2a).Add eC2b).Add eC2c).services.map Event.GetAbsExpiry
      = [3, 1, 2] ∧
    ServiceQueue.PeekTimestamp (((PlannerNew.Add eC2a).Add eC2b).Add eC2c).services
      = some 2 ∧
    (heapPop (((PlannerNew.Add eC2a).Add eC2b).Add eC2c).services).1.GetAbsExpiry = 3 := by
  refine ⟨?_, ?_, ?_⟩ <;> decide

/-- C2 witness: a concrete three-element queue satisfying the heap
invariant. -/
theorem heap_invariant_pop_min_witness :
    (∀ i, i < ([(default : Event).SetAbsExpiry 1, (default : Event).SetAbsExpiry 2,
        (default : Event).SetAbsExpiry 3]).length →
      (lget [(default : Event).SetAbsExpiry 1, (default : Event).SetAbsExpiry 2,
        (default : Event).SetAbsExpiry 3] 0).priority
        ≤ (lget [(default : Event).SetAbsExpiry 1, (default : Event).SetAbsExpiry 2,
            (default : Event).SetAbsExpiry 3] i).priority) ∧
    (heapPop [(default : Event).SetAbsExpiry 1, (default : Event).SetAbsExpiry 2,
        (default : Event).SetAbsExpiry 3]).1
      = { lget [(default : Event).SetAbsExpiry 1, (default : Event).SetAbsExpiry 2,
          (default : Event).SetAbsExpiry 3] 0 with index := -1 } ∧
    (heapPop [(default : Event).SetAbsExpiry 1, (default : Event).SetAbsExpiry 2,
        (default : Event).SetAbsExpiry 3]).2.length
      = ([(default : Event).SetAbsExpiry 1, (default : Event).SetAbsExpiry 2,
          (default : Event).SetAbsExpiry 3]).length - 1 ∧
    ServiceQueue.PeekTimestamp [(default : Event).SetAbsExpiry 1,
        (default : Event).SetAbsExpiry 2, (default : Event).SetAbsExpiry 3]
      = some (lget [(default : Event).SetAbsExpiry 1, (default : Event).SetAbsExpiry 2,
          (default : Event).SetAbsExpiry 3]
          (([(default : Event).SetAbsExpiry 1, (default : Event).SetAbsExpiry 2,
            (default : Event).SetAbsExpiry 3]).length - 1)).absExpiry :=
  heap_invariant_pop_min _ (by decide) (by unfold heapInv; decide)

/-! ## Tombstone facts for the final (spec-modelled) planner -/

/-- Every queued handle of the event `eid` carries the `deleted`
tombstone (the state `Delete` establishes). -/
def noLiveId (p : Planner) (eid : Nat) : Prop :=
  ∀ e ∈ p.services, e.id = eid → e.deleted = true

lemma popMinAbs_mem : ∀ (q : List Event) (root : Event) (rest : List Event),
    popMinAbs q = some (root, rest) → root ∈ q ∧ ∀ e ∈ rest, e ∈ q := by
  intro q
  induction q with
  | nil => intro root rest h; simp [popMinAbs] at h
  | cons a t ih =>
    intro root rest h
    rcases ht : popMinAbs t with _ | ⟨m, rest'⟩
    · simp only [popMinAbs, ht, Option.some.injEq, Prod.mk.injEq] at h
      obtain ⟨rfl, rfl⟩ := h
      exact ⟨List.mem_cons_self a t, by simp⟩
    · simp only [popMinAbs, ht] at h
      by_cases hle : a.absExpiry ≤ m.absExpiry
      · rw [if_pos hle] at h
        simp only [Option.some.injEq, Prod.mk.injEq] at h
        obtain ⟨rfl, rfl⟩ := h
        exact ⟨List.mem_cons_self a t, fun e he => List.mem_cons_of_mem a he⟩
      · rw [if_neg hle] at h
        simp only [Option.some.injEq, Prod.mk.injEq] at h
        obtain ⟨rfl, rfl⟩ := h
        obtain ⟨hm, hr⟩ := ih m rest' ht
        refine ⟨List.mem_cons_of_mem a hm, ?_⟩
        intro e he
        rcases List.mem_cons.mp he with rfl | he'
        · exact List.mem_cons_self e t
        · exact List.mem_cons_of_mem a (hr e he')

lemma specAdd_shape (p : Planner) (e : Event) :
    (SpecPlanner.Add p e).ticks = p.ticks ∧
    (SpecPlanner.Add p e).execLog = p.execLog ∧
    ∃ x : Event, (SpecPlanner.Add p e).services = p.services ++ [x] ∧ x.id = e.id := by
  by_cases h : e.IsImmediate <;>
    simp [SpecPlanner.Add, h, Event.Immediate, Event.SetAbsExpiry]

lemma specDrain_noLive : ∀ (fuel : Nat) (p : Planner) (eid : Nat), noLiveId p eid →
    (SpecPlanner.drain fuel p).execLog.count eid = p.execLog.count eid ∧
    noLiveId (SpecPlanner.drain fuel p) eid := by
  intro fuel
  induction fuel with
  | zero => intro p eid h; exact ⟨rfl, h⟩
  | succ m ih =>
    intro p eid h
    rcases hq : popMinAbs p.services with _ | ⟨root, rest⟩
    · simp only [SpecPlanner.drain, hq]
      exact ⟨by simp, h⟩
    · obtain ⟨hrootmem, hrest⟩ := popMinAbs_mem _ _ _ hq
      by_cases hle : root.absExpiry ≤ p.ticks
      · by_cases hdel : root.IsDeleted
        · have h' : noLiveId ({ p with services := rest }) eid :=
            fun e he hid => h e (hrest e he) hid
          simp only [SpecPlanner.drain, hq, if_pos hle, if_pos hdel]
          exact ih _ eid h'
        · have hid : root.id ≠ eid := by
            intro hh
            exact hdel (by simp [Event.IsDeleted, h root hrootmem hh])
          have hcount : (p.execLog ++ [root.id]).count eid = p.execLog.count eid := by
            simp [List.count_append, List.count_singleton, hid]
          have h1 : noLiveId ({ p with services := rest, execLog := p.execLog ++ [root.id] }) eid :=
            fun e he hid' => h e (hrest e he) hid'
          by_cases hrep : root.IsRepeating
          · obtain ⟨ht, hl, x, hs, hx⟩ := specAdd_shape ({ p with services := rest, execLog := p.execLog ++ [root.id] }) root
            have h2 : noLiveId (SpecPlanner.Add ({ p with services := rest, execLog := p.execLog ++ [root.id] }) root) eid := by
              intro e he hid'
              rw [hs] at he
              rcases List.mem_append.mp he with he' | he'
              · exact h e (hrest e he') hid'
              · rw [List.mem_singleton.mp he'] at hid'
                exact absurd (hx ▸ hid') hid
            simp only [SpecPlanner.drain, hq, if_pos hle, if_neg hdel, if_pos hrep]
            obtain ⟨hc, hn⟩ := ih _ eid h2
            refine ⟨?_, hn⟩
            rw [hc, hl]
            exact hcount
          · simp only [SpecPlanner.drain, hq, if_pos hle, if_neg hdel, if_neg hrep]
            obtain ⟨hc, hn⟩ := ih _ eid h1
            refine ⟨?_, hn⟩
            rw [hc]
            exact hcount
      · simp only [SpecPlanner.drain, hq, if_neg hle]
        exact ⟨by simp, h⟩

lemma specTick_noLive (p : Planner) (eid : Nat) (h : noLiveId p eid) :
    (SpecPlanner.Tick p).execLog.count eid = p.execLog.count eid ∧
    noLiveId (SpecPlanner.Tick p) eid :=
  specDrain_noLive _ _ _ (fun e he hid => h e he hid)

/-- C5: in the final planner (spec-modelled `Delete` and tombstone
check), `Delete` marks the `deleted` tombstone on every queued handle
of the event, leaves the log and the clock untouched, and returns
whether the event was known to the planner; and once every queued
handle of an event is tombstoned — in particular right after a `Delete`
that precedes the event's firing tick — no later `Tick()` ever invokes
that event's hooks: its id never enters the execution log (deleted
entries are lazily popped and discarded at the root). -/
theorem specPlanner_delete_prevents_execution :
    (∀ (p : Planner) (eid : Nat),
        (SpecPlanner.Delete p eid).2 = p.services.any (fun e => e.id = eid) ∧
        noLiveId (SpecPlanner.Delete p eid).1 eid ∧
        (SpecPlanner.Delete p eid).1.execLog = p.execLog ∧
        (SpecPlanner.Delete p eid).1.ticks = p.ticks) ∧
    (∀ (p : Planner) (eid : Nat), noLiveId p eid → ∀ n : Nat,
        (SpecPlanner.Tick^[n] p).execLog.count eid = p.execLog.count eid) := by
  constructor
  · intro p eid
    refine ⟨rfl, ?_, rfl, rfl⟩
    intro e he hid
    rcases List.mem_map.mp he with ⟨x, hx, rfl⟩
    by_cases hxid : x.id = eid
    · simp [hxid, Event.Delete]
    · rw [if_neg hxid] at hid ⊢
      exact absurd hid hxid
  · intro p eid h n
    induction n generalizing p with
    | zero => rfl
    | succ m ih =>
      rw [Function.iterate_succ_apply]
      obtain ⟨hc, hn⟩ := specTick_noLive p eid h
      rw [ih _ hn, hc]

/-- A concrete deletable event for the C5 witness. -/
def eC5 : Event :=
  { id := 3, url := none, secs := 1, hooks := 1, immediate := false,
    offset := 0, repeats := true, Label := "", absExpiry := 1, index := 0,
    priority := 1, deleted := false }

/-- C5 witness: delete the only queued event before its firing tick;
five ticks later its hooks have never been invoked. -/
theorem specPlanner_delete_prevents_execution_witness :
    (SpecPlanner.Delete ⟨[eC5], 0, []⟩ 3).2 = true ∧
    (SpecPlanner.Tick^[5] (SpecPlanner.Delete ⟨[eC5], 0, []⟩ 3).1).execLog.count 3 = 0 := by
  constructor
  · rw [(specPlanner_delete_prevents_execution.1 ⟨[eC5], 0, []⟩ 3).1]
    decide
  · rw [specPlanner_delete_prevents_execution.2 (SpecPlanner.Delete ⟨[eC5], 0, []⟩ 3).1 3
      (specPlanner_delete_prevents_execution.1 ⟨[eC5], 0, []⟩ 3).2.1 5]
    decide
